import Mathlib

/-!
Verification of the conduit foveated panorama compressor.

The development shallowly embeds the code of `src/optimizer/optimizer.cpp`
and `src/util/timer.hpp`:

* pixel buffers (`cv::Mat`) become `Image`, a dimensions-plus-lookup record
  with value semantics; the scalar index arithmetic of the encoder and the
  decoder is embedded over `ℤ` (C++ `int`), with truncation toward zero of a
  `double`-to-`int` conversion rendered as `Int.tdiv` of the exact rational;
* the image-library primitives the spec lists as external (slicing,
  horizontal concatenation, resize, constant fill) are modelled from the
  spec where their pixel contents matter, and noted as such;
* a second, heap-based model (`Store`/`MatRef`) captures the reference
  semantics of `cv::Mat` headers (shallow copies, write-through views) that
  the value model abstracts away, for the aliasing / purity claims;
* the `FramerateProfiler` of `timer.hpp` is embedded with `double`s as exact
  rationals and its `int` sample buffer as `ℤ`.
-/

namespace Conduit

/-- A pixel: three integer channels, matching the typical 3-channel type of
the panoramas. -/
abbrev Pixel := ℤ × ℤ × ℤ

/-- The zero pixel used by the decoder fill, `cv::Scalar(0,0,0)`. -/
def blackPixel : Pixel := (0, 0, 0)

/-- A rectangular pixel buffer with value semantics: dimensions plus a total
lookup function (indices outside the rectangle are junk and never relied
upon). -/
structure Image where
  rows : ℕ
  cols : ℕ
  pix : ℕ → ℕ → Pixel

/-- The constant `CROP_ANGLE = 180` (optimizer.cpp:11). -/
def CROP_ANGLE : ℤ := 180

/-- The constant `H_FOCUS_ANGLE = 30` (optimizer.cpp:12). -/
def H_FOCUS_ANGLE : ℤ := 30

/-- The constant `V_FOCUS_ANGLE = 30` (optimizer.cpp:13). -/
def V_FOCUS_ANGLE : ℤ := 30

/-- The constant `BLUR_FACTOR = 3` (optimizer.cpp:14). -/
def BLUR_FACTOR : ℕ := 3

/-- The `int` overload of `constrainAngle` (optimizer.cpp:33-39):
`x %= 360; if (x < 0) x += 360;`.  C++ `%` on `int` truncates toward zero,
which is `Int.tmod`. -/
def constrainAngleInt (x : ℤ) : ℤ :=
  let r := Int.tmod x 360
  if r < 0 then r + 360 else r

/-- Truncation toward zero of a rational to an integer: the semantics of a
C++ `double`-to-`int` conversion (and of the implicit truncation in
`fmod`). -/
def ratTrunc (x : ℚ) : ℤ :=
  Int.tdiv x.num x.den

/-- The C library `fmod(x, y)`: `x - y * trunc(x / y)`, exact on the rational model of
`double`. -/
def ratFmod (x y : ℚ) : ℚ :=
  x - y * (ratTrunc (x / y) : ℤ)

/-- The `double` overload of `constrainAngle` (optimizer.cpp:41-48), with
`double` modelled as an exact rational:
`x = fmod(x, 360); if (x < 0) x += 360;`. -/
def constrainAngleRat (x : ℚ) : ℚ :=
  let r := ratFmod x 360
  if r < 0 then r + 360 else r

/-- The helper `clamp` (optimizer.cpp:50-52):
`std::max(lo, std::min(x, hi))`. -/
def clamp (x lo hi : ℤ) : ℤ :=
  max lo (min x hi)

/-- Column-range slice `Mat(image, Range::all(), Range(l, r))`: width
`r - l`, column `j` of the slice is column `l + j` of the parent. -/
def matColRange (img : Image) (l r : ℤ) : Image :=
  { rows := img.rows
    cols := (r - l).toNat
    pix := fun i j => img.pix i ((l + (j : ℤ)).toNat) }

/-- Row-range slice `Mat(image, Range(t, b))`: height `b - t`, row `i` of
the slice is row `t + i` of the parent. -/
def matRowRange (img : Image) (t b : ℤ) : Image :=
  { rows := (b - t).toNat
    cols := img.cols
    pix := fun i j => img.pix ((t + (i : ℤ)).toNat) j }

/-- Modelled from the spec: `ImageUtil::hconcat2` is repository code outside
the given sources; the spec's pixel-buffer contract asks to "horizontally
concatenate two or three buffers of equal height". -/
def hconcat2 (a b : Image) : Image :=
  { rows := a.rows
    cols := a.cols + b.cols
    pix := fun i j => if j < a.cols then a.pix i j else b.pix i (j - a.cols) }

/-- Modelled from the spec: `ImageUtil::hconcat3`, three-buffer horizontal
concatenation. -/
def hconcat3 (a b c : Image) : Image :=
  { rows := a.rows
    cols := a.cols + b.cols + c.cols
    pix := fun i j =>
      if j < a.cols then a.pix i j
      else if j < a.cols + b.cols then b.pix i (j - a.cols)
      else c.pix i (j - a.cols - b.cols) }

/-- Modelled from the spec: bilinear resize is an external image-library
primitive ("Bilinear resize between two (rows, cols) sizes").  No claim
depends on the resampled pixel values, only on the output dimensions, so
the sampling here is nearest-neighbour. -/
def resize (img : Image) (w h : ℕ) : Image :=
  { rows := h
    cols := w
    pix := fun i j => img.pix (i * img.rows / h) (j * img.cols / w) }

/-- An all-black freshly allocated buffer: `Mat(rows, cols, type)` followed
by `setTo(cv::Scalar(0,0,0))`. -/
def blackImage (rows cols : ℕ) : Image :=
  { rows := rows, cols := cols, pix := fun _ _ => blackPixel }

/-- The function `cropHorizontallyWrapped` (optimizer.cpp:54-72). -/
def cropHorizontallyWrapped (image : Image) (leftCol rightCol : ℤ) : Image :=
  if leftCol < rightCol then
    matColRange image leftCol rightCol
  else
    hconcat2 (matColRange image leftCol image.cols) (matColRange image 0 rightCol)

/-- The scalar index arithmetic of `Optimizer::optimizeImage`
(optimizer.cpp:74-135), gathered in one record.  All quantities are C++
`int`s; a `double`-to-`int` conversion of `k * (n / 360.0)` is the exact
truncation `Int.tdiv (k * n) 360`.  `cw` is the width of the crop that
`cropHorizontallyWrapped` returns, written out arithmetically. -/
structure EncParams where
  leftAngle : ℤ
  rightAngle : ℤ
  leftCol : ℤ
  rightCol : ℤ
  cw : ℤ
  focusWidth : ℤ
  focusLeftCol : ℤ
  focusRightCol : ℤ
  focusHeight : ℤ
  focusMiddleRow : ℤ
  focusTopRow : ℤ
  focusBottomRow : ℤ

/-- The index computations of `Optimizer::optimizeImage` on a panorama of
size `width × height` at gaze `(angle, vAngle)`. -/
def encParams (width height : ℕ) (angle vAngle : ℤ) : EncParams :=
  let a := constrainAngleInt angle
  let leftAngle := constrainAngleInt (a - CROP_ANGLE / 2)
  let rightAngle := constrainAngleInt (a + CROP_ANGLE / 2)
  let leftCol := Int.tdiv (leftAngle * width) 360
  let rightCol := Int.tdiv (rightAngle * width) 360
  let cw := if leftCol < rightCol then rightCol - leftCol
            else ((width : ℤ) - leftCol) + rightCol
  let focusWidth := Int.tdiv (H_FOCUS_ANGLE * width) 360
  let focusLeftCol := Int.tdiv cw 2 - Int.tdiv focusWidth 2
  let focusRightCol := Int.tdiv cw 2 + Int.tdiv focusWidth 2
  let focusHeight := Int.tdiv (V_FOCUS_ANGLE * height) 180
  let focusMiddleRow := clamp (Int.tdiv (vAngle * height) 180)
      (Int.tdiv focusHeight 2) ((height : ℤ) - Int.tdiv focusHeight 2)
  { leftAngle := leftAngle
    rightAngle := rightAngle
    leftCol := leftCol
    rightCol := rightCol
    cw := cw
    focusWidth := focusWidth
    focusLeftCol := focusLeftCol
    focusRightCol := focusRightCol
    focusHeight := focusHeight
    focusMiddleRow := focusMiddleRow
    focusTopRow := focusMiddleRow - Int.tdiv focusHeight 2
    focusBottomRow := focusMiddleRow + Int.tdiv focusHeight 2 }

/-- The record returned by the encoder (optimizer.hpp / optimizer.cpp:16-26),
in value semantics. -/
structure OptimizedImage where
  focused : Image
  blurred : Image
  focusRow : ℤ
  focusCol : ℤ
  fullWidth : ℕ
  fullHeight : ℕ
  leftBuffer : ℤ

/-- The encoder `Optimizer::optimizeImage` (optimizer.cpp:74-135), value semantics. -/
def optimizeImage (image : Image) (angle vAngle : ℤ) : OptimizedImage :=
  let p := encParams image.cols image.rows angle vAngle
  let cropped := cropHorizontallyWrapped image p.leftCol p.rightCol
  let middle := matColRange cropped p.focusLeftCol p.focusRightCol
  let focused := matRowRange middle p.focusTopRow p.focusBottomRow
  let small := resize cropped (cropped.cols / BLUR_FACTOR) (cropped.rows / BLUR_FACTOR)
  let blurred := resize small cropped.cols cropped.rows
  { focused := focused
    blurred := blurred
    focusRow := p.focusTopRow
    focusCol := p.focusLeftCol
    fullWidth := image.cols
    fullHeight := image.rows
    leftBuffer := p.leftCol }

/-- The first phase of `Optimizer::extractImage` (optimizer.cpp:189-196):
the value of the blurred buffer after `optImage.focused.copyTo(tmp)` pasted
the foveal tile over the rectangle
`[focusRow, focusRow + fh) × [focusCol, focusCol + fw)`. -/
def pasteFocused (opt : OptimizedImage) : Image :=
  { rows := opt.blurred.rows
    cols := opt.blurred.cols
    pix := fun i j =>
      if opt.focusRow ≤ (i : ℤ) ∧ (i : ℤ) < opt.focusRow + opt.focused.rows ∧
         opt.focusCol ≤ (j : ℤ) ∧ (j : ℤ) < opt.focusCol + opt.focused.cols then
        opt.focused.pix ((i : ℤ) - opt.focusRow).toNat ((j : ℤ) - opt.focusCol).toNat
      else opt.blurred.pix i j }

/-- The decoder helper `uncropWrapped` (optimizer.cpp:138-184). -/
def uncropWrapped (croppedImage : Image) (fullWidth : ℕ) (leftBuffer : ℤ) : Image :=
  if (fullWidth : ℤ) ≤ (croppedImage.cols : ℤ) + leftBuffer then
    let rightEndExclusive : ℤ := (fullWidth : ℤ) - leftBuffer
    let fullRight := matColRange croppedImage 0 rightEndExclusive
    let fullLeft := matColRange croppedImage rightEndExclusive croppedImage.cols
    let fullCenter := blackImage croppedImage.rows
        ((fullWidth : ℤ) - (fullRight.cols : ℤ) - (fullLeft.cols : ℤ)).toNat
    hconcat3 fullLeft fullCenter fullRight
  else
    let fullLeft := blackImage croppedImage.rows leftBuffer.toNat
    let fullRight := blackImage croppedImage.rows
        ((fullWidth : ℤ) - leftBuffer - (croppedImage.cols : ℤ)).toNat
    hconcat3 fullLeft croppedImage fullRight

/-- The decoder `Optimizer::extractImage` (optimizer.cpp:186-208), value semantics. -/
def extractImage (opt : OptimizedImage) : Image :=
  uncropWrapped (pasteFocused opt) opt.fullWidth opt.leftBuffer

/-- The pipeline `Optimizer::processImage` (optimizer.cpp:210-214). -/
def processImage (image : Image) (angle vAngle : ℤ) : Image :=
  extractImage (optimizeImage image angle vAngle)



/-! ### Angle normalization (AG): helper lemmas -/

/-- The integer overload of constrainAngle computes the Euclidean remainder
by 360. -/
theorem constrainAngleInt_eq_emod (x : ℤ) : constrainAngleInt x = x % 360 := by
  unfold constrainAngleInt
  rcases x with m | m
  · simp only [Int.ofNat_eq_natCast]
    rw [Int.tmod_eq_emod (Int.ofNat_nonneg m) (by norm_num)]
    have h := Int.emod_nonneg (m : ℤ) (show (360:ℤ) ≠ 0 by norm_num)
    rw [if_neg (not_lt.mpr h)]
  · have h : Int.tmod (Int.negSucc m) 360 = -(((m + 1) % 360 : ℕ) : ℤ) := rfl
    rw [h]
    simp only [Int.negSucc_eq]
    split_ifs with hlt <;> omega

/-- Truncation toward zero is the floor for non-negative arguments and the
ceiling for negative ones. -/
theorem ratTrunc_eq (x : ℚ) : ratTrunc x = if 0 ≤ x then ⌊x⌋ else ⌈x⌉ := by
  unfold ratTrunc
  split_ifs with hx
  · rw [Rat.floor_def]
    exact Int.tdiv_eq_ediv (Rat.num_nonneg.mpr hx) (Int.ofNat_nonneg _)
  · have hnum : x.num < 0 := by
      rcases lt_or_le x.num 0 with h | h
      · exact h
      · exact absurd (Rat.num_nonneg.mp h) hx
    have h1 : x.num.tdiv x.den = -((-x.num).tdiv x.den) := by
      rw [← Int.neg_tdiv, neg_neg]
    have h2 : (-x.num).tdiv (x.den : ℤ) = (-x.num) / (x.den : ℤ) :=
      Int.tdiv_eq_ediv (by omega) (Int.ofNat_nonneg _)
    have h3 : (⌈x⌉ : ℤ) = -⌊-x⌋ := by
      rw [Int.floor_neg]
      ring
    rw [h1, h2, h3, Rat.floor_def, Rat.num_neg_eq_neg_num, Rat.den_neg_eq_den]

/-- The real overload of constrainAngle computes 360 times the fractional
part of x / 360. -/
theorem constrainAngleRat_eq_fract (x : ℚ) :
    constrainAngleRat x = 360 * Int.fract (x / 360) := by
  unfold constrainAngleRat ratFmod
  rw [ratTrunc_eq]
  have h360 : (360 : ℚ) ≠ 0 := by norm_num
  have hx360 : 360 * (x / 360) = x := by field_simp
  by_cases hx : 0 ≤ x / 360
  · rw [if_pos hx]
    have key : x - 360 * ((⌊x / 360⌋ : ℤ) : ℚ) = 360 * Int.fract (x / 360) := by
      rw [Int.fract, mul_sub, hx360]
    have hnn : 0 ≤ 360 * Int.fract (x / 360) := by
      have := Int.fract_nonneg (x / 360); linarith
    rw [key, if_neg (not_lt.mpr hnn)]
  · rw [if_neg hx]
    by_cases hz : Int.fract (x / 360) = 0
    · have hfl : x / 360 = ((⌊x / 360⌋ : ℤ) : ℚ) := by
        have := Int.fract (x / 360)
        unfold Int.fract at hz
        linarith [hz]
      have hceil : (⌈x / 360⌉ : ℤ) = ⌊x / 360⌋ := by
        rw [hfl, Int.ceil_intCast, Int.floor_intCast]
      rw [hceil]
      have key : x - 360 * ((⌊x / 360⌋ : ℤ) : ℚ) = 0 := by
        have : ((⌊x / 360⌋ : ℤ) : ℚ) = x / 360 := hfl.symm
        rw [this]; field_simp
      rw [key, hz, if_neg (by norm_num)]
      ring
    · have hceil : ((⌈x / 360⌉ : ℤ) : ℚ) = x / 360 + 1 - Int.fract (x / 360) :=
        Int.ceil_eq_add_one_sub_fract hz
      rw [hceil]
      have hfr0 : 0 ≤ Int.fract (x / 360) := Int.fract_nonneg _
      have hfr1 : Int.fract (x / 360) < 1 := Int.fract_lt_one _
      have key : x - 360 * (x / 360 + 1 - Int.fract (x / 360)) =
          360 * Int.fract (x / 360) - 360 := by
        rw [mul_sub, mul_add, hx360]; ring
      rw [key, if_pos (by linarith)]
      ring

/-- C8 helper: the real overload lands in [0, 360). -/
theorem constrainAngleRat_mem (x : ℚ) :
    0 ≤ constrainAngleRat x ∧ constrainAngleRat x < 360 := by
  rw [constrainAngleRat_eq_fract]
  constructor
  · have := Int.fract_nonneg (x / 360); positivity
  · have := Int.fract_lt_one (x / 360); linarith


/-- C8: Angle normalization.  For both the integer and the real overload of
constrainAngle, the result lies in [0, 360); the function is invariant under
adding any multiple of 360 and is idempotent.  (The `double` overload is
modelled with exact rational arithmetic.) -/
theorem constrainAngle_spec :
    (∀ x : ℤ, 0 ≤ constrainAngleInt x ∧ constrainAngleInt x < 360) ∧
    (∀ (x k : ℤ), constrainAngleInt (x + 360 * k) = constrainAngleInt x) ∧
    (∀ x : ℤ, constrainAngleInt (constrainAngleInt x) = constrainAngleInt x) ∧
    (∀ x : ℚ, 0 ≤ constrainAngleRat x ∧ constrainAngleRat x < 360) ∧
    (∀ (x : ℚ) (k : ℤ), constrainAngleRat (x + 360 * k) = constrainAngleRat x) ∧
    (∀ x : ℚ, constrainAngleRat (constrainAngleRat x) = constrainAngleRat x) := by
  refine ⟨fun x => ?_, fun x k => ?_, fun x => ?_, fun x => constrainAngleRat_mem x,
    fun x k => ?_, fun x => ?_⟩
  · rw [constrainAngleInt_eq_emod]; omega
  · rw [constrainAngleInt_eq_emod, constrainAngleInt_eq_emod]; omega
  · rw [constrainAngleInt_eq_emod, constrainAngleInt_eq_emod]
    omega
  · rw [constrainAngleRat_eq_fract, constrainAngleRat_eq_fract]
    have h : (x + 360 * k) / 360 = x / 360 + (k : ℚ) := by
      field_simp
      ring
    rw [h, Int.fract_add_int]
  · rw [constrainAngleRat_eq_fract x, constrainAngleRat_eq_fract]
    have h : 360 * Int.fract (x / 360) / 360 = Int.fract (x / 360) :=
      mul_div_cancel_left₀ _ (by norm_num)
    rw [h, Int.fract_fract]

/-! ### The wrapped horizontal crop -/

/-- Width of the wrapped crop, as the code computes it. -/
lemma cropHorizontallyWrapped_cols (image : Image) (l r : ℤ)
    (hl0 : 0 ≤ l) (hlW : l ≤ (image.cols : ℤ)) (hr0 : 0 ≤ r) :
    ((cropHorizontallyWrapped image l r).cols : ℤ) =
      if l < r then r - l else ((image.cols : ℤ) - l) + r := by
  unfold cropHorizontallyWrapped
  split_ifs with h
  · simp only [matColRange]
    omega
  · simp only [hconcat2, matColRange]
    push_cast
    omega

/-- The wrapped crop keeps the height of its input. -/
lemma cropHorizontallyWrapped_rows (image : Image) (l r : ℤ) :
    (cropHorizontallyWrapped image l r).rows = image.rows := by
  unfold cropHorizontallyWrapped
  split_ifs <;> rfl

/-- Crop pixels, low part: while the source column stays below the width. -/
lemma cropHorizontallyWrapped_pix_low (image : Image) (l r : ℤ)
    (hl0 : 0 ≤ l) (i j : ℕ)
    (hj : j < (cropHorizontallyWrapped image l r).cols)
    (hlow : l.toNat + j < image.cols) :
    (cropHorizontallyWrapped image l r).pix i j = image.pix i (l.toNat + j) := by
  unfold cropHorizontallyWrapped at hj ⊢
  split_ifs at hj ⊢ with h
  · show image.pix i ((l + (j : ℤ)).toNat) = _
    congr 1
    omega
  · simp only [hconcat2, matColRange] at hj ⊢
    split_ifs with h2
    · congr 1; omega
    · congr 1; omega

/-- Crop pixels, wrapped part: once the source column passes the width the
crop reads from the start of the image. -/
lemma cropHorizontallyWrapped_pix_high (image : Image) (l r : ℤ)
    (hl0 : 0 ≤ l) (hlW : l ≤ (image.cols : ℤ)) (hrW : r ≤ (image.cols : ℤ)) (i j : ℕ)
    (hj : j < (cropHorizontallyWrapped image l r).cols)
    (hhigh : image.cols ≤ l.toNat + j) :
    (cropHorizontallyWrapped image l r).pix i j =
      image.pix i (l.toNat + j - image.cols) := by
  unfold cropHorizontallyWrapped at hj ⊢
  split_ifs at hj ⊢ with h
  · simp only [matColRange] at hj
    omega
  · simp only [hconcat2, matColRange] at hj ⊢
    split_ifs with h2
    · omega
    · congr 1; omega

/-- C6: Wrapped-crop dimensions.  For column indices 0 <= L, R < W with
L /= R, the crop has width (R - L) mod W and the height of the input; for
L < R it is the contiguous columns [L, R), and for L > R the concatenation
of columns [L, W) and [0, R). -/
theorem cropHorizontallyWrapped_spec (image : Image) (L R : ℕ)
    (hL : L < image.cols) (hR : R < image.cols) (hne : L ≠ R) :
    ((cropHorizontallyWrapped image (L : ℤ) (R : ℤ)).cols : ℤ) =
        ((R : ℤ) - (L : ℤ)) % (image.cols : ℤ) ∧
    (cropHorizontallyWrapped image (L : ℤ) (R : ℤ)).rows = image.rows ∧
    (L < R → ∀ i j : ℕ, j < (cropHorizontallyWrapped image (L : ℤ) (R : ℤ)).cols →
        (cropHorizontallyWrapped image (L : ℤ) (R : ℤ)).pix i j = image.pix i (L + j)) ∧
    (R < L → ∀ i j : ℕ, j < (cropHorizontallyWrapped image (L : ℤ) (R : ℤ)).cols →
        (cropHorizontallyWrapped image (L : ℤ) (R : ℤ)).pix i j =
          if j < image.cols - L then image.pix i (L + j)
          else image.pix i (j - (image.cols - L))) := by
  have hcols := cropHorizontallyWrapped_cols image L R (by omega) (by omega) (by omega)
  refine ⟨?_, cropHorizontallyWrapped_rows image (L : ℤ) (R : ℤ), ?_, ?_⟩
  · rw [hcols]
    split_ifs with h
    · rw [Int.emod_eq_of_lt (by omega) (by omega)]
    · have key : ((R : ℤ) - L) % (image.cols : ℤ)
          = ((R : ℤ) - L + (image.cols : ℤ) * 1) % (image.cols : ℤ) :=
        (Int.add_mul_emod_self_left ((R : ℤ) - L) (image.cols : ℤ) 1).symm
      rw [key, Int.emod_eq_of_lt (by omega) (by omega)]
      omega
  · intro hLR i j hj
    have h2 := hcols
    rw [if_pos (show (L : ℤ) < (R : ℤ) by omega)] at h2
    rw [cropHorizontallyWrapped_pix_low image L R (by omega) i j hj (by omega)]
    congr 1
  · intro hRL i j hj
    have h2 := hcols
    rw [if_neg (show ¬ ((L : ℤ) < (R : ℤ)) by omega)] at h2
    split_ifs with h3
    · rw [cropHorizontallyWrapped_pix_low image L R (by omega) i j hj (by omega)]
      congr 1
    · rw [cropHorizontallyWrapped_pix_high image L R (by omega) (by omega) (by omega) i j hj
        (by omega)]
      congr 1
      omega

/-! ### Encoder index arithmetic: projection and bound lemmas -/

lemma encParams_leftCol (W H : ℕ) (a v : ℤ) :
    (encParams W H a v).leftCol = Int.tdiv ((encParams W H a v).leftAngle * W) 360 := rfl

lemma encParams_rightCol (W H : ℕ) (a v : ℤ) :
    (encParams W H a v).rightCol = Int.tdiv ((encParams W H a v).rightAngle * W) 360 := rfl

lemma encParams_cw (W H : ℕ) (a v : ℤ) :
    (encParams W H a v).cw =
      if (encParams W H a v).leftCol < (encParams W H a v).rightCol then
        (encParams W H a v).rightCol - (encParams W H a v).leftCol
      else ((W : ℤ) - (encParams W H a v).leftCol) + (encParams W H a v).rightCol := rfl

lemma encParams_focusWidth (W H : ℕ) (a v : ℤ) :
    (encParams W H a v).focusWidth = Int.tdiv (H_FOCUS_ANGLE * W) 360 := rfl

lemma encParams_focusLeftCol (W H : ℕ) (a v : ℤ) :
    (encParams W H a v).focusLeftCol =
      Int.tdiv (encParams W H a v).cw 2 - Int.tdiv (encParams W H a v).focusWidth 2 := rfl

lemma encParams_focusRightCol (W H : ℕ) (a v : ℤ) :
    (encParams W H a v).focusRightCol =
      Int.tdiv (encParams W H a v).cw 2 + Int.tdiv (encParams W H a v).focusWidth 2 := rfl

lemma encParams_focusHeight (W H : ℕ) (a v : ℤ) :
    (encParams W H a v).focusHeight = Int.tdiv (V_FOCUS_ANGLE * H) 180 := rfl

lemma encParams_focusMiddleRow (W H : ℕ) (a v : ℤ) :
    (encParams W H a v).focusMiddleRow =
      clamp (Int.tdiv (v * H) 180) (Int.tdiv (encParams W H a v).focusHeight 2)
        ((H : ℤ) - Int.tdiv (encParams W H a v).focusHeight 2) := rfl

lemma encParams_focusTopRow (W H : ℕ) (a v : ℤ) :
    (encParams W H a v).focusTopRow =
      (encParams W H a v).focusMiddleRow - Int.tdiv (encParams W H a v).focusHeight 2 := rfl

lemma encParams_focusBottomRow (W H : ℕ) (a v : ℤ) :
    (encParams W H a v).focusBottomRow =
      (encParams W H a v).focusMiddleRow + Int.tdiv (encParams W H a v).focusHeight 2 := rfl

lemma encParams_leftAngle_emod (W H : ℕ) (a v : ℤ) :
    (encParams W H a v).leftAngle = (a % 360 - 90) % 360 := by
  show constrainAngleInt (constrainAngleInt a - CROP_ANGLE / 2) = _
  rw [constrainAngleInt_eq_emod, constrainAngleInt_eq_emod]
  norm_num [CROP_ANGLE]

lemma encParams_rightAngle_emod (W H : ℕ) (a v : ℤ) :
    (encParams W H a v).rightAngle = (a % 360 + 90) % 360 := by
  show constrainAngleInt (constrainAngleInt a + CROP_ANGLE / 2) = _
  rw [constrainAngleInt_eq_emod, constrainAngleInt_eq_emod]
  norm_num [CROP_ANGLE]

/-- The crop endpoints come from angles 180 degrees apart: either the left
angle is below 180 and the right angle is 180 above it, or the left angle is
at least 180 and the right angle is 180 below it. -/
lemma encParams_angle_cases (W H : ℕ) (a v : ℤ) :
    (0 ≤ (encParams W H a v).leftAngle ∧ (encParams W H a v).leftAngle < 360) ∧
    (0 ≤ (encParams W H a v).rightAngle ∧ (encParams W H a v).rightAngle < 360) ∧
    (((encParams W H a v).leftAngle < 180 ∧
      (encParams W H a v).rightAngle = (encParams W H a v).leftAngle + 180) ∨
     (180 ≤ (encParams W H a v).leftAngle ∧
      (encParams W H a v).rightAngle = (encParams W H a v).leftAngle - 180)) := by
  rw [encParams_leftAngle_emod W H a v, encParams_rightAngle_emod W H a v]
  omega

/-- Bounds on the crop columns and the crop width: both endpoints lie in
[0, W), and the crop is between half the width (rounded down) and the full
width. -/
lemma encParams_col_bounds (W H : ℕ) (angle vAngle : ℤ) (hW : 1 ≤ W) :
    0 ≤ (encParams W H angle vAngle).leftCol ∧
    (encParams W H angle vAngle).leftCol < W ∧
    0 ≤ (encParams W H angle vAngle).rightCol ∧
    (encParams W H angle vAngle).rightCol < W ∧
    1 ≤ (encParams W H angle vAngle).cw ∧
    (encParams W H angle vAngle).cw ≤ W ∧
    (W : ℤ) / 2 ≤ (encParams W H angle vAngle).cw := by
  obtain ⟨⟨hl0, hl1⟩, ⟨hr0, hr1⟩, hcases⟩ := encParams_angle_cases W H angle vAngle
  have hWz : (0 : ℤ) ≤ W := by exact_mod_cast Nat.zero_le W
  have hlc : (encParams W H angle vAngle).leftCol =
      (encParams W H angle vAngle).leftAngle * W / 360 := by
    rw [encParams_leftCol, Int.tdiv_eq_ediv (mul_nonneg hl0 hWz) (by norm_num)]
  have hrc : (encParams W H angle vAngle).rightCol =
      (encParams W H angle vAngle).rightAngle * W / 360 := by
    rw [encParams_rightCol, Int.tdiv_eq_ediv (mul_nonneg hr0 hWz) (by norm_num)]
  have hu0 : 0 ≤ (encParams W H angle vAngle).leftAngle * W := mul_nonneg hl0 hWz
  have hu1 : (encParams W H angle vAngle).leftAngle * W ≤ 359 * W :=
    mul_le_mul_of_nonneg_right (by omega) hWz
  rcases hcases with ⟨hc, hr⟩ | ⟨hc, hr⟩
  · have h179 : (encParams W H angle vAngle).leftAngle * W ≤ 179 * W :=
      mul_le_mul_of_nonneg_right (by omega) hWz
    have hprod : (encParams W H angle vAngle).rightAngle * W =
        (encParams W H angle vAngle).leftAngle * W + 180 * W := by
      rw [hr]; ring
    rw [encParams_cw, hlc, hrc, hprod]
    generalize (encParams W H angle vAngle).leftAngle * W = u at *
    split_ifs with hbr <;> omega
  · have h180 : 180 * W ≤ (encParams W H angle vAngle).leftAngle * W :=
      mul_le_mul_of_nonneg_right (by omega) hWz
    have hprod : (encParams W H angle vAngle).rightAngle * W =
        (encParams W H angle vAngle).leftAngle * W - 180 * W := by
      rw [hr]; ring
    rw [encParams_cw, hlc, hrc, hprod]
    generalize (encParams W H angle vAngle).leftAngle * W = u at *
    split_ifs with hbr <;> omega

/-- Bounds on the horizontal focus window inside the crop: the window is
well-ordered and strictly inside the crop (the code asserts of
optimizer.cpp:106-108). -/
lemma encParams_focus_bounds (W H : ℕ) (angle vAngle : ℤ) (hW : 1 ≤ W) :
    0 ≤ (encParams W H angle vAngle).focusLeftCol ∧
    (encParams W H angle vAngle).focusLeftCol ≤ (encParams W H angle vAngle).focusRightCol ∧
    (encParams W H angle vAngle).focusRightCol < (encParams W H angle vAngle).cw := by
  obtain ⟨-, -, -, -, hcw1, hcwW, hcwHalf⟩ := encParams_col_bounds W H angle vAngle hW
  have hWz : (0 : ℤ) ≤ W := by exact_mod_cast Nat.zero_le W
  have hfw : (encParams W H angle vAngle).focusWidth = 30 * W / 360 := by
    rw [encParams_focusWidth, H_FOCUS_ANGLE,
      Int.tdiv_eq_ediv (by positivity) (by norm_num)]
  have hfw0 : 0 ≤ (encParams W H angle vAngle).focusWidth := by
    rw [hfw]; positivity
  have hcw0 : 0 ≤ (encParams W H angle vAngle).cw := by omega
  have hfwd : Int.tdiv (encParams W H angle vAngle).focusWidth 2 =
      (encParams W H angle vAngle).focusWidth / 2 :=
    Int.tdiv_eq_ediv hfw0 (by norm_num)
  have hcwd : Int.tdiv (encParams W H angle vAngle).cw 2 =
      (encParams W H angle vAngle).cw / 2 :=
    Int.tdiv_eq_ediv hcw0 (by norm_num)
  rw [encParams_focusLeftCol, encParams_focusRightCol, hfwd, hcwd, hfw]
  omega

/-- Bounds on the vertical focus window: it stays inside [0, H] for every
vertical angle, and its height is twice half the focus height. -/
lemma encParams_vertical_bounds (W H : ℕ) (angle vAngle : ℤ) :
    0 ≤ (encParams W H angle vAngle).focusTopRow ∧
    (encParams W H angle vAngle).focusTopRow ≤ (encParams W H angle vAngle).focusBottomRow ∧
    (encParams W H angle vAngle).focusBottomRow ≤ H ∧
    (encParams W H angle vAngle).focusBottomRow - (encParams W H angle vAngle).focusTopRow =
      2 * Int.tdiv (encParams W H angle vAngle).focusHeight 2 := by
  have hHz : (0 : ℤ) ≤ H := by exact_mod_cast Nat.zero_le H
  have hfh : (encParams W H angle vAngle).focusHeight = 30 * H / 180 := by
    rw [encParams_focusHeight, V_FOCUS_ANGLE,
      Int.tdiv_eq_ediv (by positivity) (by norm_num)]
  have hfh0 : 0 ≤ (encParams W H angle vAngle).focusHeight := by
    rw [hfh]; positivity
  have hfhd : Int.tdiv (encParams W H angle vAngle).focusHeight 2 =
      (encParams W H angle vAngle).focusHeight / 2 :=
    Int.tdiv_eq_ediv hfh0 (by norm_num)
  rw [encParams_focusTopRow, encParams_focusBottomRow, encParams_focusMiddleRow,
    clamp, hfhd, hfh]
  simp only [max_def, min_def]
  split_ifs <;> omega

/-! ### The encoder record -/

lemma optimizeImage_focusCol (image : Image) (a v : ℤ) :
    (optimizeImage image a v).focusCol =
      (encParams image.cols image.rows a v).focusLeftCol := rfl

lemma optimizeImage_focusRow (image : Image) (a v : ℤ) :
    (optimizeImage image a v).focusRow =
      (encParams image.cols image.rows a v).focusTopRow := rfl

lemma optimizeImage_leftBuffer (image : Image) (a v : ℤ) :
    (optimizeImage image a v).leftBuffer =
      (encParams image.cols image.rows a v).leftCol := rfl

lemma optimizeImage_fullWidth (image : Image) (a v : ℤ) :
    (optimizeImage image a v).fullWidth = image.cols := rfl

lemma optimizeImage_fullHeight (image : Image) (a v : ℤ) :
    (optimizeImage image a v).fullHeight = image.rows := rfl

lemma optimizeImage_focused_cols_def (image : Image) (a v : ℤ) :
    (optimizeImage image a v).focused.cols =
      ((encParams image.cols image.rows a v).focusRightCol -
        (encParams image.cols image.rows a v).focusLeftCol).toNat := rfl

lemma optimizeImage_focused_rows_def (image : Image) (a v : ℤ) :
    (optimizeImage image a v).focused.rows =
      ((encParams image.cols image.rows a v).focusBottomRow -
        (encParams image.cols image.rows a v).focusTopRow).toNat := rfl

lemma optimizeImage_blurred_rows (image : Image) (a v : ℤ) :
    (optimizeImage image a v).blurred.rows = image.rows := by
  show (cropHorizontallyWrapped image _ _).rows = image.rows
  exact cropHorizontallyWrapped_rows image _ _

lemma optimizeImage_blurred_cols (image : Image) (a v : ℤ) (hW : 1 ≤ image.cols) :
    ((optimizeImage image a v).blurred.cols : ℤ) =
      (encParams image.cols image.rows a v).cw := by
  obtain ⟨hl0, hl1, hr0, hr1, -, -, -⟩ :=
    encParams_col_bounds image.cols image.rows a v hW
  show ((cropHorizontallyWrapped image (encParams image.cols image.rows a v).leftCol
      (encParams image.cols image.rows a v).rightCol).cols : ℤ) = _
  rw [cropHorizontallyWrapped_cols image _ _ hl0 (by omega) hr0, encParams_cw]

/-- C9: the encoder establishes the OptimizedImage record invariants on any
non-empty panorama: the foveal tile lies inside the blurred surround, the
surround is no larger than the panorama, and the left buffer is a valid
panorama column. -/
theorem optimizeImage_invariants (image : Image) (angle vAngle : ℤ)
    (hW : 1 ≤ image.cols) (hH : 1 ≤ image.rows) :
    0 ≤ (optimizeImage image angle vAngle).focusCol ∧
    (optimizeImage image angle vAngle).focusCol +
        ((optimizeImage image angle vAngle).focused.cols : ℤ) ≤
      ((optimizeImage image angle vAngle).blurred.cols : ℤ) ∧
    0 ≤ (optimizeImage image angle vAngle).focusRow ∧
    (optimizeImage image angle vAngle).focusRow +
        ((optimizeImage image angle vAngle).focused.rows : ℤ) ≤
      ((optimizeImage image angle vAngle).blurred.rows : ℤ) ∧
    (optimizeImage image angle vAngle).blurred.cols ≤ image.cols ∧
    (optimizeImage image angle vAngle).blurred.rows ≤ image.rows ∧
    0 ≤ (optimizeImage image angle vAngle).leftBuffer ∧
    (optimizeImage image angle vAngle).leftBuffer < (image.cols : ℤ) := by
  obtain ⟨hl0, hl1, hr0, hr1, hcw1, hcwW, hcwHalf⟩ :=
    encParams_col_bounds image.cols image.rows angle vAngle hW
  obtain ⟨hfl0, hflr, hfrc⟩ := encParams_focus_bounds image.cols image.rows angle vAngle hW
  obtain ⟨ht0, htb, hbH, hdiff⟩ := encParams_vertical_bounds image.cols image.rows angle vAngle
  have hbc := optimizeImage_blurred_cols image angle vAngle hW
  have hbr := optimizeImage_blurred_rows image angle vAngle
  rw [optimizeImage_focusCol, optimizeImage_focusRow, optimizeImage_leftBuffer,
    optimizeImage_focused_cols_def, optimizeImage_focused_rows_def, hbr]
  omega

/-- A concrete 24-wide, 12-high test panorama. -/
def img24 : Image := ⟨12, 24, fun r c => ((r : ℤ), (c : ℤ), 0)⟩

/-- Witness for C9 at a concrete panorama and gaze. -/
theorem optimizeImage_invariants_witness :
    1 ≤ img24.cols ∧ 1 ≤ img24.rows ∧
    (0 ≤ (optimizeImage img24 0 0).focusCol ∧
     (optimizeImage img24 0 0).focusCol + ((optimizeImage img24 0 0).focused.cols : ℤ) ≤
       ((optimizeImage img24 0 0).blurred.cols : ℤ) ∧
     0 ≤ (optimizeImage img24 0 0).focusRow ∧
     (optimizeImage img24 0 0).focusRow + ((optimizeImage img24 0 0).focused.rows : ℤ) ≤
       ((optimizeImage img24 0 0).blurred.rows : ℤ) ∧
     (optimizeImage img24 0 0).blurred.cols ≤ img24.cols ∧
     (optimizeImage img24 0 0).blurred.rows ≤ img24.rows ∧
     0 ≤ (optimizeImage img24 0 0).leftBuffer ∧
     (optimizeImage img24 0 0).leftBuffer < (img24.cols : ℤ)) :=
  ⟨by decide, by decide, optimizeImage_invariants img24 0 0 (by decide) (by decide)⟩

/-! ### The foveal tile height (C5, C7) -/

/-- A 360-wide, 186-high panorama, for which the ideal focus height
floor(30 * 186 / 180) = 31 is odd. -/
def pano186 : Image := ⟨186, 360, fun _ _ => blackPixel⟩

/-- C5 counterexample: on a 360 x 186 panorama the foveal tile has 30 rows,
not focusHeight = floor(V_FOCUS_ANGLE * 186 / 180) = 31 as the claim
states. -/
theorem focused_rows_ne_focusHeight :
    ((optimizeImage pano186 0 0).focused.rows : ℤ) ≠
      Int.tdiv (V_FOCUS_ANGLE * (pano186.rows : ℤ)) 180 := by decide

/-- C5 amended: for every panorama and every gaze, the foveal tile has
exactly 2 * (focusHeight / 2) rows (focusHeight rounded down to an even
number) -- in particular its height does not depend on the vertical
angle. -/
theorem optimizeImage_focused_rows_even (image : Image) (angle vAngle : ℤ) :
    ((optimizeImage image angle vAngle).focused.rows : ℤ) =
      2 * Int.tdiv (Int.tdiv (V_FOCUS_ANGLE * (image.rows : ℤ)) 180) 2 := by
  obtain ⟨ht0, htb, hbH, hdiff⟩ := encParams_vertical_bounds image.cols image.rows angle vAngle
  have hfh : Int.tdiv (V_FOCUS_ANGLE * (image.rows : ℤ)) 180 =
      30 * (image.rows : ℤ) / 180 := by
    rw [V_FOCUS_ANGLE]
    exact Int.tdiv_eq_ediv (by positivity) (by norm_num)
  have hfh0 : 0 ≤ 30 * (image.rows : ℤ) / 180 :=
    Int.ediv_nonneg (by positivity) (by norm_num)
  have h2 : Int.tdiv (30 * (image.rows : ℤ) / 180) 2 = 30 * (image.rows : ℤ) / 180 / 2 :=
    Int.tdiv_eq_ediv hfh0 (by norm_num)
  rw [optimizeImage_focused_rows_def, hfh, h2]
  rw [encParams_focusHeight, hfh, h2] at hdiff
  omega

/-- The 360 x 180 test panorama of the spec, pixel (r, c) = (c, r, 0). -/
def testPano : Image := ⟨180, 360, fun r c => ((c : ℤ), (r : ℤ), 0)⟩

/-- C7 counterexample: encoding the test panorama at vertical angle 0 gives
focusRow = 0 but focusRow + focusHeight = 30, not 15 as the claim states. -/
theorem testPano_focusRow_not_fifteen :
    ¬ ((optimizeImage testPano 0 0).focusRow = 0 ∧
       (optimizeImage testPano 0 0).focusRow +
         Int.tdiv (V_FOCUS_ANGLE * (testPano.rows : ℤ)) 180 = 15) := by decide

/-- C7 amended: encoding the test panorama at vertical angle 0 gives
focusRow = 0 and focusRow + focusHeight = 30 (the clamped focus centre row
is 15). -/
theorem testPano_focusRow_edge :
    (optimizeImage testPano 0 0).focusRow = 0 ∧
    (optimizeImage testPano 0 0).focusRow +
      Int.tdiv (V_FOCUS_ANGLE * (testPano.rows : ℤ)) 180 = 30 := by decide

/-! ### Decoder dimensions (C2) -/

lemma uncropWrapped_rows (img : Image) (W : ℕ) (L : ℤ) :
    (uncropWrapped img W L).rows = img.rows := by
  unfold uncropWrapped
  split_ifs <;> rfl

lemma uncropWrapped_cols (img : Image) (W : ℕ) (L : ℤ)
    (hL0 : 0 ≤ L) (hLW : L < (W : ℤ)) (hcw : img.cols ≤ W) :
    (uncropWrapped img W L).cols = W := by
  unfold uncropWrapped
  split_ifs with h
  · simp only [hconcat3, matColRange, blackImage]
    omega
  · simp only [hconcat3, blackImage]
    omega

/-- C2: dimension preservation.  Decoding an encoded panorama yields an
image with exactly the panorama dimensions, whichever branch of the
decoder (wrapped or contained) is taken. -/
theorem extract_optimize_dims (image : Image) (angle vAngle : ℤ) (hW : 1 ≤ image.cols) :
    (extractImage (optimizeImage image angle vAngle)).cols = image.cols ∧
    (extractImage (optimizeImage image angle vAngle)).rows = image.rows := by
  obtain ⟨hl0, hl1, hr0, hr1, hcw1, hcwW, hcwHalf⟩ :=
    encParams_col_bounds image.cols image.rows angle vAngle hW
  have hbc := optimizeImage_blurred_cols image angle vAngle hW
  have hbr := optimizeImage_blurred_rows image angle vAngle
  unfold extractImage
  constructor
  · rw [uncropWrapped_cols (pasteFocused (optimizeImage image angle vAngle))
      (optimizeImage image angle vAngle).fullWidth (optimizeImage image angle vAngle).leftBuffer
      (by rw [optimizeImage_leftBuffer]; exact hl0)
      (by rw [optimizeImage_leftBuffer, optimizeImage_fullWidth]; exact_mod_cast hl1)
      (by show (optimizeImage image angle vAngle).blurred.cols ≤ image.cols; omega)]
    rw [optimizeImage_fullWidth]
  · rw [uncropWrapped_rows]
    show (optimizeImage image angle vAngle).blurred.rows = image.rows
    exact hbr

/-- Witness for C2 at a concrete panorama and gaze. -/
theorem extract_optimize_dims_witness :
    1 ≤ img24.cols ∧
    ((extractImage (optimizeImage img24 37 5)).cols = img24.cols ∧
     (extractImage (optimizeImage img24 37 5)).rows = img24.rows) :=
  ⟨by decide, extract_optimize_dims img24 37 5 (by decide)⟩

/-- A concrete 4-wide, 2-high image. -/
def imgA : Image := ⟨2, 4, fun r c => ((r : ℤ), (c : ℤ), 0)⟩

/-- Witness for C6: a wrapping crop on the concrete image, left column 3,
right column 1. -/
theorem cropHorizontallyWrapped_spec_witness :
    3 < imgA.cols ∧ 1 < imgA.cols ∧ (3 : ℕ) ≠ 1 ∧
    ((cropHorizontallyWrapped imgA ((3 : ℕ) : ℤ) ((1 : ℕ) : ℤ)).cols : ℤ) =
      (((1 : ℕ) : ℤ) - ((3 : ℕ) : ℤ)) % (imgA.cols : ℤ) :=
  ⟨by decide, by decide, by decide,
    (cropHorizontallyWrapped_spec imgA 3 1 (by decide) (by decide) (by decide)).1⟩

/-! ### Decoder totality (C10) -/

/-- The in-bounds conditions of every slice taken and every assert executed
by extractImage and uncropWrapped (optimizer.cpp:153-159, 171-172,
192-195): the paste rectangle lies inside the blurred buffer; in the
wrapped branch the split column W - leftBuffer lies inside the crop and the
black gap W - cw is non-negative; in the contained branch the right black
band W - leftBuffer - cw is non-negative. -/
def extractAssertsHold (opt : OptimizedImage) : Prop :=
  (0 ≤ opt.focusRow ∧
   opt.focusRow + (opt.focused.rows : ℤ) ≤ (opt.blurred.rows : ℤ) ∧
   0 ≤ opt.focusCol ∧
   opt.focusCol + (opt.focused.cols : ℤ) ≤ (opt.blurred.cols : ℤ)) ∧
  (if (opt.fullWidth : ℤ) ≤ (opt.blurred.cols : ℤ) + opt.leftBuffer then
     0 ≤ (opt.fullWidth : ℤ) - opt.leftBuffer ∧
     (opt.fullWidth : ℤ) - opt.leftBuffer ≤ (opt.blurred.cols : ℤ) ∧
     0 ≤ (opt.fullWidth : ℤ) - (opt.blurred.cols : ℤ)
   else
     0 ≤ (opt.fullWidth : ℤ) - opt.leftBuffer - (opt.blurred.cols : ℤ))

/-- C10: decoder totality.  Under the record invariants every slice taken
by extractImage and uncropWrapped is in bounds and every internal assertion
holds, in both decoder branches. -/
theorem extractImage_total (opt : OptimizedImage)
    (h1 : 0 ≤ opt.focusRow)
    (h2 : opt.focusRow + (opt.focused.rows : ℤ) ≤ (opt.blurred.rows : ℤ))
    (h3 : 0 ≤ opt.focusCol)
    (h4 : opt.focusCol + (opt.focused.cols : ℤ) ≤ (opt.blurred.cols : ℤ))
    (h5 : opt.blurred.cols ≤ opt.fullWidth)
    (h6 : 0 ≤ opt.leftBuffer)
    (h7 : opt.leftBuffer < (opt.fullWidth : ℤ)) :
    extractAssertsHold opt := by
  unfold extractAssertsHold
  refine ⟨⟨h1, h2, h3, h4⟩, ?_⟩
  split_ifs with h <;> omega

/-- A concrete well-formed OptimizedImage record. -/
def optSmall : OptimizedImage :=
  ⟨⟨1, 1, fun _ _ => (5, 5, 5)⟩, ⟨2, 2, fun _ _ => blackPixel⟩, 0, 0, 3, 2, 1⟩

/-- Witness for C10 at a concrete record. -/
theorem extractImage_total_witness :
    (0 ≤ optSmall.focusRow ∧
     optSmall.focusRow + (optSmall.focused.rows : ℤ) ≤ (optSmall.blurred.rows : ℤ) ∧
     0 ≤ optSmall.focusCol ∧
     optSmall.focusCol + (optSmall.focused.cols : ℤ) ≤ (optSmall.blurred.cols : ℤ) ∧
     optSmall.blurred.cols ≤ optSmall.fullWidth ∧
     0 ≤ optSmall.leftBuffer ∧
     optSmall.leftBuffer < (optSmall.fullWidth : ℤ)) ∧
    extractAssertsHold optSmall :=
  ⟨⟨by decide, by decide, by decide, by decide, by decide, by decide, by decide⟩,
    extractImage_total optSmall (by decide) (by decide) (by decide) (by decide)
      (by decide) (by decide) (by decide)⟩

/-! ### Foveal fidelity (C1) -/

/-- The re-embedding places column j of the crop at panorama column
(leftBuffer + j) mod W. -/
lemma uncropWrapped_pix (img : Image) (W : ℕ) (L : ℤ)
    (hL0 : 0 ≤ L) (hLW : L < (W : ℤ)) (hcw : img.cols ≤ W) (i j : ℕ) (hj : j < img.cols) :
    (uncropWrapped img W L).pix i ((L.toNat + j) % W) = img.pix i j := by
  have hW : 0 < W := by omega
  unfold uncropWrapped
  split_ifs with h
  · simp only [hconcat3, matColRange, blackImage]
    rcases lt_or_le (L.toNat + j) W with hlow | hhigh
    · rw [Nat.mod_eq_of_lt hlow]
      split_ifs with c1 c2
      · omega
      · omega
      · congr 1
        omega
    · rw [Nat.mod_eq_sub_mod (by omega), Nat.mod_eq_of_lt (by omega)]
      split_ifs with c1 c2
      · congr 1
        omega
      · omega
      · omega
  · simp only [hconcat3, blackImage]
    have hltW : L.toNat + j < W := by omega
    rw [Nat.mod_eq_of_lt hltW]
    split_ifs with c1 c2
    · omega
    · congr 1
      omega
    · omega

/-- Inside the foveal rectangle the pasted crop reads from the foveal
tile. -/
lemma pasteFocused_pix_in (opt : OptimizedImage) (i j : ℕ)
    (h : opt.focusRow ≤ (i : ℤ) ∧ (i : ℤ) < opt.focusRow + opt.focused.rows ∧
         opt.focusCol ≤ (j : ℤ) ∧ (j : ℤ) < opt.focusCol + opt.focused.cols) :
    (pasteFocused opt).pix i j =
      opt.focused.pix ((i : ℤ) - opt.focusRow).toNat ((j : ℤ) - opt.focusCol).toNat := by
  simp only [pasteFocused]
  rw [if_pos h]

/-- The foveal tile is the crop restricted to the focus window. -/
lemma optimizeImage_focused_pix (image : Image) (a v : ℤ) (i j : ℕ) :
    (optimizeImage image a v).focused.pix i j =
      (cropHorizontallyWrapped image (encParams image.cols image.rows a v).leftCol
        (encParams image.cols image.rows a v).rightCol).pix
        ((encParams image.cols image.rows a v).focusTopRow + (i : ℤ)).toNat
        ((encParams image.cols image.rows a v).focusLeftCol + (j : ℤ)).toNat := rfl

lemma pasteFocused_cols (opt : OptimizedImage) :
    (pasteFocused opt).cols = opt.blurred.cols := rfl

/-- The crop width in encParams form. -/
lemma cropped_cols_cw (image : Image) (a v : ℤ) (hW : 1 ≤ image.cols) :
    ((cropHorizontallyWrapped image (encParams image.cols image.rows a v).leftCol
        (encParams image.cols image.rows a v).rightCol).cols : ℤ) =
      (encParams image.cols image.rows a v).cw := by
  obtain ⟨hl0, hl1, hr0, hr1, -, -, -⟩ :=
    encParams_col_bounds image.cols image.rows a v hW
  rw [cropHorizontallyWrapped_cols image _ _ hl0 (by omega) hr0, encParams_cw]

/-- C1: foveal fidelity.  In the decoded image, every pixel of the
rectangle [focusRow, focusRow + fh) x [focusCol, focusCol + fw), remapped
to panorama columns via leftBuffer modulo the width, equals the
corresponding source pixel exactly. -/
theorem foveal_fidelity (image : Image) (angle vAngle : ℤ) (hW : 1 ≤ image.cols)
    (i j : ℕ)
    (hi : i < (optimizeImage image angle vAngle).focused.rows)
    (hj : j < (optimizeImage image angle vAngle).focused.cols) :
    (extractImage (optimizeImage image angle vAngle)).pix
        ((optimizeImage image angle vAngle).focusRow.toNat + i)
        (((optimizeImage image angle vAngle).leftBuffer.toNat +
          ((optimizeImage image angle vAngle).focusCol.toNat + j)) % image.cols) =
      image.pix ((optimizeImage image angle vAngle).focusRow.toNat + i)
        (((optimizeImage image angle vAngle).leftBuffer.toNat +
          ((optimizeImage image angle vAngle).focusCol.toNat + j)) % image.cols) := by
  obtain ⟨hl0, hl1, hr0, hr1, hcw1, hcwW, hcwHalf⟩ :=
    encParams_col_bounds image.cols image.rows angle vAngle hW
  obtain ⟨hfl0, hflr, hfrc⟩ := encParams_focus_bounds image.cols image.rows angle vAngle hW
  obtain ⟨ht0, htb, hbH, hdiff⟩ := encParams_vertical_bounds image.cols image.rows angle vAngle
  have hbc := optimizeImage_blurred_cols image angle vAngle hW
  have hcc := cropped_cols_cw image angle vAngle hW
  rw [optimizeImage_focused_rows_def] at hi
  rw [optimizeImage_focused_cols_def] at hj
  rw [optimizeImage_focusRow, optimizeImage_focusCol, optimizeImage_leftBuffer]
  unfold extractImage
  rw [optimizeImage_fullWidth, optimizeImage_leftBuffer]
  have hpc : (pasteFocused (optimizeImage image angle vAngle)).cols =
      (optimizeImage image angle vAngle).blurred.cols := rfl
  rw [uncropWrapped_pix (pasteFocused (optimizeImage image angle vAngle)) image.cols
    (encParams image.cols image.rows angle vAngle).leftCol hl0 hl1
    (by omega)
    ((encParams image.cols image.rows angle vAngle).focusTopRow.toNat + i)
    ((encParams image.cols image.rows angle vAngle).focusLeftCol.toNat + j)
    (by omega)]
  rw [pasteFocused_pix_in (optimizeImage image angle vAngle) _ _
    (by
      rw [optimizeImage_focusRow, optimizeImage_focusCol, optimizeImage_focused_rows_def,
        optimizeImage_focused_cols_def]
      push_cast
      omega)]
  rw [optimizeImage_focusRow, optimizeImage_focusCol, optimizeImage_focused_pix]
  have hA : ((encParams image.cols image.rows angle vAngle).focusTopRow +
      ((((encParams image.cols image.rows angle vAngle).focusTopRow.toNat + i : ℕ) : ℤ) -
        (encParams image.cols image.rows angle vAngle).focusTopRow).toNat).toNat =
      (encParams image.cols image.rows angle vAngle).focusTopRow.toNat + i := by
    omega
  have hB : ((encParams image.cols image.rows angle vAngle).focusLeftCol +
      ((((encParams image.cols image.rows angle vAngle).focusLeftCol.toNat + j : ℕ) : ℤ) -
        (encParams image.cols image.rows angle vAngle).focusLeftCol).toNat).toNat =
      (encParams image.cols image.rows angle vAngle).focusLeftCol.toNat + j := by
    omega
  rw [hA, hB]
  rcases lt_or_le ((encParams image.cols image.rows angle vAngle).leftCol.toNat +
      ((encParams image.cols image.rows angle vAngle).focusLeftCol.toNat + j)) image.cols
    with hlow | hhigh
  · rw [Nat.mod_eq_of_lt hlow]
    rw [cropHorizontallyWrapped_pix_low image _ _ hl0 _ _ (by omega) (by omega)]
  · rw [Nat.mod_eq_sub_mod (by omega), Nat.mod_eq_of_lt (by omega)]
    rw [cropHorizontallyWrapped_pix_high image _ _ hl0 (by omega) (by omega) _ _
      (by omega) (by omega)]

/-- Witness for C1 at a concrete panorama and gaze (the top-left foveal
pixel). -/
theorem foveal_fidelity_witness :
    1 ≤ img24.cols ∧ 0 < (optimizeImage img24 0 0).focused.rows ∧
    0 < (optimizeImage img24 0 0).focused.cols ∧
    (extractImage (optimizeImage img24 0 0)).pix
        ((optimizeImage img24 0 0).focusRow.toNat + 0)
        (((optimizeImage img24 0 0).leftBuffer.toNat +
          ((optimizeImage img24 0 0).focusCol.toNat + 0)) % img24.cols) =
      img24.pix ((optimizeImage img24 0 0).focusRow.toNat + 0)
        (((optimizeImage img24 0 0).leftBuffer.toNat +
          ((optimizeImage img24 0 0).focusCol.toNat + 0)) % img24.cols) :=
  ⟨by decide, by decide, by decide,
    foveal_fidelity img24 0 0 (by decide) 0 0 (by decide) (by decide)⟩

/-! ### The frame-rate profiler (C4), from src/util/timer.hpp -/

/-- The constant `MAX_SAMPLES = 100` (timer.hpp:38). -/
def MAX_SAMPLES : ℕ := 100

/-- The state of `FramerateProfiler` (timer.hpp:63-68): `ticksum` is a
`double` (modelled as an exact rational) but `ticklist` is an array of C++
`int`s. -/
structure FramerateProfiler where
  tickindex : ℕ
  ticksum : ℚ
  ticklist : List ℤ
  samplesCollected : ℕ

/-- The freshly constructed profiler (timer.hpp:42-46). -/
def initProfiler : FramerateProfiler :=
  ⟨0, 0, List.replicate MAX_SAMPLES 0, 0⟩

/-- The method `profileFrame` (timer.hpp:72-80).  The store
`ticklist[tickindex] = frameTime` truncates the `double` frame time toward
zero, because the array holds `int`s. -/
def profileFrame (p : FramerateProfiler) (frameTime : ℚ) : FramerateProfiler :=
  { tickindex := (p.tickindex + 1) % MAX_SAMPLES
    ticksum := p.ticksum - ((p.ticklist.getD p.tickindex 0 : ℤ) : ℚ) + frameTime
    ticklist := p.ticklist.set p.tickindex (ratTrunc frameTime)
    samplesCollected :=
      if p.samplesCollected < MAX_SAMPLES then p.samplesCollected + 1
      else p.samplesCollected }

/-- The method `getFramerate` (timer.hpp:56-61). -/
def getFramerate (p : FramerateProfiler) : ℚ :=
  if p.ticksum = 0 then 0 else (p.samplesCollected : ℚ) / p.ticksum

/-- Feeding a sequence of frame times through startFrame / finishFrame:
each finishFrame calls profileFrame with the elapsed frame time. -/
def runFrames (ts : List ℚ) : FramerateProfiler :=
  ts.foldl profileFrame initProfiler

lemma getD_replicate_self (n i : ℕ) (a : ℤ) : (List.replicate n a).getD i a = a := by
  induction n generalizing i with
  | zero => simp [List.getD]
  | succ n ih =>
    cases i with
    | zero => simp [List.replicate_succ]
    | succ i => simpa [List.replicate_succ] using ih i

lemma ratTrunc_half : ratTrunc ((1 : ℚ)/2) = 0 := by
  rw [ratTrunc_eq, if_pos (by norm_num)]
  exact Int.floor_eq_iff.mpr (by norm_num)

/-- Explicit state of the profiler after k frames of half a second each:
because `ticklist` stores truncated values, the list stays all-zero and the
running sum keeps every half second ever recorded. -/
lemma runFrames_half (k : ℕ) :
    runFrames (List.replicate k ((1 : ℚ)/2)) =
      ⟨k % 100, (k : ℚ)/2, List.replicate 100 0, min k 100⟩ := by
  induction k with
  | zero =>
    unfold runFrames initProfiler MAX_SAMPLES
    norm_num
  | succ k ih =>
    have step : runFrames (List.replicate (k + 1) ((1 : ℚ)/2)) =
        profileFrame (runFrames (List.replicate k ((1 : ℚ)/2))) ((1 : ℚ)/2) := by
      unfold runFrames
      rw [List.replicate_succ', List.foldl_append]
      rfl
    rw [step, ih]
    unfold profileFrame MAX_SAMPLES
    simp only [getD_replicate_self, ratTrunc_half, List.set_replicate_self,
      FramerateProfiler.mk.injEq]
    refine ⟨by omega, by push_cast; ring, trivial, by split_ifs <;> omega⟩

/-- C4: after 101 frames of half a second, getFramerate returns 200/101
(about 1.98) instead of the rolling-window value
n / s = 100 / 50 = 2: the `int` sample list drops the fractional part of
each evicted sample, contradicting the documented rolling average over the
last MAX_SAMPLES frames. -/
theorem framerateProfiler_truncation_bug :
    getFramerate (runFrames (List.replicate 101 ((1 : ℚ)/2))) = 200 / 101 ∧
    getFramerate (runFrames (List.replicate 101 ((1 : ℚ)/2))) ≠
      ((min 101 MAX_SAMPLES : ℕ) : ℚ) / (100 * ((1 : ℚ)/2)) := by
  rw [runFrames_half 101]
  unfold getFramerate MAX_SAMPLES
  norm_num

/-! ### Heap model of Mat reference semantics (C3)

The value model above abstracts away that `cv::Mat` is a reference type:
`Mat(m)` copies only the header, `Mat(m, Range(..), Range(..))` is a view,
and `copyTo` on a view writes through to the parent buffer (the behaviour
the spec requires of the image library).  This second model makes storage
explicit to settle the purity / aliasing claim.  Offsets and sizes are kept
as naturals; all the C++ `int` index values involved are non-negative under
the record invariants established above. -/

/-- A pixel buffer in the heap: dimensions plus storage contents. -/
structure Buf where
  rows : ℕ
  cols : ℕ
  dat : ℕ → ℕ → Pixel

/-- The heap of allocated buffers: `n` buffers exist; `bufs` holds their
contents (junk beyond `n`). -/
structure Store where
  n : ℕ
  bufs : ℕ → Buf

/-- A `cv::Mat` header: a reference to a rectangular window of a buffer. -/
structure MatRef where
  buf : ℕ
  rOff : ℕ
  cOff : ℕ
  rows : ℕ
  cols : ℕ

/-- Reading pixel (i, j) of the window `m` refers to. -/
def readPix (σ : Store) (m : MatRef) (i j : ℕ) : Pixel :=
  (σ.bufs m.buf).dat (m.rOff + i) (m.cOff + j)

/-- Allocate a fresh buffer; the returned reference views all of it. -/
def alloc (σ : Store) (b : Buf) : Store × MatRef :=
  (⟨σ.n + 1, fun k => if k = σ.n then b else σ.bufs k⟩, ⟨σ.n, 0, 0, b.rows, b.cols⟩)

/-- Slicing `Mat(m, Range(r1, r2), Range(c1, c2))`: a sub-view sharing storage. -/
def sliceRef (m : MatRef) (r1 r2 c1 c2 : ℕ) : MatRef :=
  ⟨m.buf, m.rOff + r1, m.cOff + c1, r2 - r1, c2 - c1⟩

/-- The copy `src.copyTo(dst)` for a view `dst`: writes through into the buffer
`dst` refers to (the spec: "Writes to the view must write through to the
parent"). -/
def copyToView (σ : Store) (src dst : MatRef) : Store :=
  ⟨σ.n, fun k =>
    if k = dst.buf then
      ⟨(σ.bufs dst.buf).rows, (σ.bufs dst.buf).cols, fun r c =>
        if dst.rOff ≤ r ∧ r < dst.rOff + dst.rows ∧
           dst.cOff ≤ c ∧ c < dst.cOff + dst.cols then
          readPix σ src (r - dst.rOff) (c - dst.cOff)
        else (σ.bufs dst.buf).dat r c⟩
    else σ.bufs k⟩

/-- Modelled from the spec: two-buffer horizontal concatenation into a
fresh buffer (`ImageUtil::hconcat2`). -/
def hconcat2H (σ : Store) (a b : MatRef) : Store × MatRef :=
  alloc σ ⟨a.rows, a.cols + b.cols, fun r c =>
    if c < a.cols then readPix σ a r c else readPix σ b r (c - a.cols)⟩

/-- Modelled from the spec: three-buffer horizontal concatenation into a
fresh buffer (`ImageUtil::hconcat3`). -/
def hconcat3H (σ : Store) (a b c : MatRef) : Store × MatRef :=
  alloc σ ⟨a.rows, a.cols + b.cols + c.cols, fun r j =>
    if j < a.cols then readPix σ a r j
    else if j < a.cols + b.cols then readPix σ b r (j - a.cols)
    else readPix σ c r (j - a.cols - b.cols)⟩

/-- Modelled from the spec: `cv::resize` allocates a fresh output
buffer. -/
def resizeH (σ : Store) (m : MatRef) (w h : ℕ) : Store × MatRef :=
  alloc σ ⟨h, w, fun r c => readPix σ m (r * m.rows / h) (c * m.cols / w)⟩

/-- Modelled from the spec: a fresh buffer filled with the zero pixel
(`Mat(rows, cols, type)` plus `setTo(cv::Scalar(0,0,0))`). -/
def blackAllocH (σ : Store) (rows cols : ℕ) : Store × MatRef :=
  alloc σ ⟨rows, cols, fun _ _ => blackPixel⟩

/-- The OptimizedImage record under reference semantics: the constructor
(optimizer.cpp:16-26) writes `this->focused = Mat(focused)`, a shallow
header copy, so the record keeps whatever storage the passed references
view. -/
structure OptRefH where
  focused : MatRef
  blurred : MatRef
  focusRow : ℕ
  focusCol : ℕ
  fullWidth : ℕ
  fullHeight : ℕ
  leftBuffer : ℕ

/-- The encoder `Optimizer::optimizeImage` under reference semantics, reusing the
index arithmetic `encParams`.  In the non-wrapping branch the crop is a
sub-view of the input panorama, and so is the foveal tile sliced from
it; the blurred layer always comes from `cv::resize`, which allocates. -/
def optimizeImageH (σ : Store) (image : MatRef) (angle vAngle : ℤ) : Store × OptRefH :=
  let p := encParams image.cols image.rows angle vAngle
  let sc := if p.leftCol < p.rightCol then
      (σ, sliceRef image 0 image.rows p.leftCol.toNat p.rightCol.toNat)
    else
      hconcat2H σ (sliceRef image 0 image.rows p.leftCol.toNat image.cols)
        (sliceRef image 0 image.rows 0 p.rightCol.toNat)
  let cropped := sc.2
  let middle := sliceRef cropped 0 cropped.rows p.focusLeftCol.toNat p.focusRightCol.toNat
  let focused := sliceRef middle p.focusTopRow.toNat p.focusBottomRow.toNat 0 middle.cols
  let sb1 := resizeH sc.1 cropped (cropped.cols / BLUR_FACTOR) (cropped.rows / BLUR_FACTOR)
  let sb2 := resizeH sb1.1 sb1.2 cropped.cols cropped.rows
  (sb2.1, ⟨focused, sb2.2, p.focusTopRow.toNat, p.focusLeftCol.toNat,
    image.cols, image.rows, p.leftCol.toNat⟩)

/-- The decoder helper `uncropWrapped` under reference semantics. -/
def uncropWrappedH (σ : Store) (croppedImage : MatRef) (fullWidth leftBuffer : ℕ) :
    Store × MatRef :=
  if fullWidth ≤ croppedImage.cols + leftBuffer then
    let rightEndExclusive := fullWidth - leftBuffer
    let fullRight := sliceRef croppedImage 0 croppedImage.rows 0 rightEndExclusive
    let fullLeft := sliceRef croppedImage 0 croppedImage.rows rightEndExclusive
        croppedImage.cols
    let sc := blackAllocH σ croppedImage.rows (fullWidth - fullRight.cols - fullLeft.cols)
    hconcat3H sc.1 fullLeft sc.2 fullRight
  else
    let sl := blackAllocH σ croppedImage.rows leftBuffer
    let sr := blackAllocH sl.1 croppedImage.rows
        (fullWidth - leftBuffer - croppedImage.cols)
    hconcat3H sr.1 sl.2 croppedImage sr.2

/-- The decoder `Optimizer::extractImage` under reference semantics:
`Mat croppedImage = Mat(optImage.blurred)` (optimizer.cpp:189) is a shallow
header copy, so the paste `optImage.focused.copyTo(tmp)` writes through
into the blurred buffer of the supposedly const argument. -/
def extractImageH (σ : Store) (opt : OptRefH) : Store × MatRef :=
  let croppedImage := opt.blurred
  let tmp := sliceRef croppedImage opt.focusRow (opt.focusRow + opt.focused.rows)
      opt.focusCol (opt.focusCol + opt.focused.cols)
  let σ1 := copyToView σ opt.focused tmp
  uncropWrappedH σ1 croppedImage opt.fullWidth opt.leftBuffer

/-- The purity half of C3 as the spec states it: extractImage never changes
any pixel of its (const) argument record. -/
def extractPreservesArg : Prop :=
  ∀ (σ : Store) (opt : OptRefH), opt.blurred.buf < σ.n →
    opt.focused.buf ≠ opt.blurred.buf →
    ∀ i j : ℕ, readPix (extractImageH σ opt).1 opt.blurred i j = readPix σ opt.blurred i j

/-- The aliasing half of C3 as the spec states it: the record returned by
optimizeImage shares no pixel storage with the source panorama. -/
def optimizeSharesNoStorage : Prop :=
  ∀ (σ : Store) (image : MatRef) (angle vAngle : ℤ), image.buf < σ.n →
    (optimizeImageH σ image angle vAngle).2.focused.buf ≠ image.buf ∧
    (optimizeImageH σ image angle vAngle).2.blurred.buf ≠ image.buf

/-- A heap with two 1 x 1 buffers: buffer 0 (the foveal tile) holds pixel
(1,1,1), buffer 1 (the blurred layer) holds (0,0,0). -/
def sig0 : Store :=
  ⟨2, fun k => if k = 0 then ⟨1, 1, fun _ _ => (1, 1, 1)⟩
      else ⟨1, 1, fun _ _ => (0, 0, 0)⟩⟩

/-- A well-formed record over `sig0`: tile buffer 0 pasted at (0,0) of the
1 x 1 blurred buffer 1, full width 1, left buffer 0. -/
def opt0 : OptRefH := ⟨⟨0, 0, 0, 1, 1⟩, ⟨1, 0, 0, 1, 1⟩, 0, 0, 1, 1, 0⟩

/-- A heap holding one 1 x 24 panorama buffer. -/
def sigP : Store := ⟨1, fun _ => ⟨1, 24, fun r c => ((r : ℤ), (c : ℤ), 0)⟩⟩

/-- A reference viewing the whole panorama buffer of `sigP`. -/
def refP : MatRef := ⟨0, 0, 0, 1, 24⟩

/-- C3 counterexample: both halves of the purity claim fail on the code.
extractImage writes the foveal tile through the shallow Mat header copy
into `opt.blurred` (here changing its pixel from (0,0,0) to (1,1,1)), and
in the non-wrapping branch (gaze 180) the `focused` member returned by
optimizeImage is a sub-view of the panorama buffer itself. -/
theorem extract_optimize_not_pure :
    ¬ extractPreservesArg ∧ ¬ optimizeSharesNoStorage := by
  constructor
  · intro h
    exact absurd (h sig0 opt0 (by decide) (by decide) 0 0) (by decide)
  · intro h
    exact (h sigP refP 180 0 (by decide)).1 (by decide)

lemma readPix_alloc_fst (σ : Store) (b : Buf) (m : MatRef) (h : m.buf < σ.n) (i j : ℕ) :
    readPix (alloc σ b).1 m i j = readPix σ m i j := by
  simp only [alloc, readPix]
  rw [if_neg (by omega)]

lemma readPix_hconcat3H_fst (σ : Store) (a b c : MatRef) (m : MatRef)
    (h : m.buf < σ.n) (i j : ℕ) :
    readPix (hconcat3H σ a b c).1 m i j = readPix σ m i j :=
  readPix_alloc_fst σ _ m h i j

lemma readPix_hconcat2H_fst (σ : Store) (a b : MatRef) (m : MatRef)
    (h : m.buf < σ.n) (i j : ℕ) :
    readPix (hconcat2H σ a b).1 m i j = readPix σ m i j :=
  readPix_alloc_fst σ _ m h i j

lemma readPix_resizeH_fst (σ : Store) (x : MatRef) (w hh : ℕ) (m : MatRef)
    (h : m.buf < σ.n) (i j : ℕ) :
    readPix (resizeH σ x w hh).1 m i j = readPix σ m i j :=
  readPix_alloc_fst σ _ m h i j

lemma readPix_blackAllocH_fst (σ : Store) (r c : ℕ) (m : MatRef)
    (h : m.buf < σ.n) (i j : ℕ) :
    readPix (blackAllocH σ r c).1 m i j = readPix σ m i j :=
  readPix_alloc_fst σ _ m h i j

lemma hconcat3H_snd_buf (σ : Store) (a b c : MatRef) : (hconcat3H σ a b c).2.buf = σ.n := rfl

lemma resizeH_snd_buf (σ : Store) (x : MatRef) (w hh : ℕ) : (resizeH σ x w hh).2.buf = σ.n := rfl

lemma blackAllocH_fst_n (σ : Store) (r c : ℕ) : (blackAllocH σ r c).1.n = σ.n + 1 := rfl

lemma hconcat2H_fst_n (σ : Store) (a b : MatRef) : (hconcat2H σ a b).1.n = σ.n + 1 := rfl

lemma resizeH_fst_n (σ : Store) (x : MatRef) (w hh : ℕ) : (resizeH σ x w hh).1.n = σ.n + 1 := rfl

lemma uncropWrappedH_fst_preserves (σ : Store) (cr : MatRef) (W L : ℕ) (m : MatRef)
    (h : m.buf < σ.n) (i j : ℕ) :
    readPix (uncropWrappedH σ cr W L).1 m i j = readPix σ m i j := by
  simp only [uncropWrappedH]
  split_ifs with hbr
  · rw [readPix_hconcat3H_fst _ _ _ _ m (by rw [blackAllocH_fst_n]; omega) i j]
    exact readPix_blackAllocH_fst σ _ _ m h i j
  · rw [readPix_hconcat3H_fst _ _ _ _ m
      (by rw [blackAllocH_fst_n, blackAllocH_fst_n]; omega) i j]
    rw [readPix_blackAllocH_fst _ _ _ m (by rw [blackAllocH_fst_n]; omega) i j]
    exact readPix_blackAllocH_fst σ _ _ m h i j

lemma uncropWrappedH_snd_fresh (σ : Store) (cr : MatRef) (W L : ℕ) :
    σ.n ≤ (uncropWrappedH σ cr W L).2.buf := by
  simp only [uncropWrappedH]
  split_ifs with hbr
  · rw [hconcat3H_snd_buf, blackAllocH_fst_n]
    omega
  · rw [hconcat3H_snd_buf, blackAllocH_fst_n, blackAllocH_fst_n]
    omega

lemma optimizeImageH_fst_preserves (σ : Store) (image : MatRef) (angle vAngle : ℤ)
    (m : MatRef) (h : m.buf < σ.n) (i j : ℕ) :
    readPix (optimizeImageH σ image angle vAngle).1 m i j = readPix σ m i j := by
  simp only [optimizeImageH]
  split_ifs with hbr
  · rw [readPix_resizeH_fst _ _ _ _ m (by show m.buf < σ.n + 1; omega) i j]
    exact readPix_resizeH_fst _ _ _ _ m h i j
  · rw [readPix_resizeH_fst _ _ _ _ m (by show m.buf < σ.n + 1 + 1; omega) i j]
    rw [readPix_resizeH_fst _ _ _ _ m (by show m.buf < σ.n + 1; omega) i j]
    exact readPix_hconcat2H_fst σ _ _ m h i j

lemma optimizeImageH_blurred_fresh (σ : Store) (image : MatRef) (angle vAngle : ℤ) :
    σ.n ≤ (optimizeImageH σ image angle vAngle).2.blurred.buf := by
  simp only [optimizeImageH]
  split_ifs with hbr
  · show σ.n ≤ σ.n + 1
    omega
  · show σ.n ≤ σ.n + 1 + 1
    omega

/-- C3 amended: what extractImage and optimizeImage actually do to
storage.  For every well-formed record (valid blurred buffer, tile not
aliasing the blurred layer):
(a) pixels of `opt.blurred` outside the foveal rectangle are unchanged by
    extractImage, but
(b) pixels inside the rectangle are overwritten with the foveal tile
    (through the shallow header copy of the const argument);
(c) the image extractImage returns is freshly allocated (never aliasing
    `opt`);
(d) the blurred layer built by optimizeImage is freshly allocated, and
    optimizeImage never writes to any existing buffer -- in particular the
    source panorama is unchanged (even though `focused` may alias it). -/
theorem extractImageH_heap_effects (σ : Store) (opt : OptRefH)
    (hb : opt.blurred.buf < σ.n)
    (hne : opt.focused.buf ≠ opt.blurred.buf) :
    (∀ i j : ℕ, ¬ (opt.focusRow ≤ i ∧ i < opt.focusRow + opt.focused.rows ∧
          opt.focusCol ≤ j ∧ j < opt.focusCol + opt.focused.cols) →
        readPix (extractImageH σ opt).1 opt.blurred i j = readPix σ opt.blurred i j) ∧
    (∀ i j : ℕ, opt.focusRow ≤ i → i < opt.focusRow + opt.focused.rows →
        opt.focusCol ≤ j → j < opt.focusCol + opt.focused.cols →
        readPix (extractImageH σ opt).1 opt.blurred i j =
          readPix σ opt.focused (i - opt.focusRow) (j - opt.focusCol)) ∧
    σ.n ≤ (extractImageH σ opt).2.buf ∧
    (∀ (image : MatRef) (angle vAngle : ℤ), image.buf < σ.n →
        (optimizeImageH σ image angle vAngle).2.blurred.buf ≠ image.buf ∧
        ∀ i j : ℕ, readPix (optimizeImageH σ image angle vAngle).1 image i j =
          readPix σ image i j) := by
  have hcopy_n : (copyToView σ opt.focused
      (sliceRef opt.blurred opt.focusRow (opt.focusRow + opt.focused.rows)
        opt.focusCol (opt.focusCol + opt.focused.cols))).n = σ.n := rfl
  refine ⟨?_, ?_, ?_, ?_⟩
  · intro i j hout
    show readPix (uncropWrappedH _ _ _ _).1 opt.blurred i j = _
    rw [uncropWrappedH_fst_preserves _ _ _ _ opt.blurred (by rw [hcopy_n]; exact hb) i j]
    simp only [copyToView, readPix, sliceRef, if_true]
    rw [if_neg (by omega)]
  · intro i j h1 h2 h3 h4
    show readPix (uncropWrappedH _ _ _ _).1 opt.blurred i j = _
    rw [uncropWrappedH_fst_preserves _ _ _ _ opt.blurred (by rw [hcopy_n]; exact hb) i j]
    simp only [copyToView, readPix, sliceRef, if_true]
    rw [if_pos (by omega)]
    congr 1 <;> omega
  · show σ.n ≤ (uncropWrappedH _ _ _ _).2.buf
    have := uncropWrappedH_snd_fresh (copyToView σ opt.focused
      (sliceRef opt.blurred opt.focusRow (opt.focusRow + opt.focused.rows)
        opt.focusCol (opt.focusCol + opt.focused.cols))) opt.blurred
      opt.fullWidth opt.leftBuffer
    rw [hcopy_n] at this
    exact this
  · intro image angle vAngle him
    refine ⟨?_, fun i j => optimizeImageH_fst_preserves σ image angle vAngle image him i j⟩
    have := optimizeImageH_blurred_fresh σ image angle vAngle
    omega

/-- Witness for the amended C3 at the concrete heap. -/
theorem extractImageH_heap_effects_witness :
    opt0.blurred.buf < sig0.n ∧ opt0.focused.buf ≠ opt0.blurred.buf ∧
    ((∀ i j : ℕ, ¬ (opt0.focusRow ≤ i ∧ i < opt0.focusRow + opt0.focused.rows ∧
          opt0.focusCol ≤ j ∧ j < opt0.focusCol + opt0.focused.cols) →
        readPix (extractImageH sig0 opt0).1 opt0.blurred i j =
          readPix sig0 opt0.blurred i j) ∧
     (∀ i j : ℕ, opt0.focusRow ≤ i → i < opt0.focusRow + opt0.focused.rows →
        opt0.focusCol ≤ j → j < opt0.focusCol + opt0.focused.cols →
        readPix (extractImageH sig0 opt0).1 opt0.blurred i j =
          readPix sig0 opt0.focused (i - opt0.focusRow) (j - opt0.focusCol)) ∧
     sig0.n ≤ (extractImageH sig0 opt0).2.buf ∧
     (∀ (image : MatRef) (angle vAngle : ℤ), image.buf < sig0.n →
        (optimizeImageH sig0 image angle vAngle).2.blurred.buf ≠ image.buf ∧
        ∀ i j : ℕ, readPix (optimizeImageH sig0 image angle vAngle).1 image i j =
          readPix sig0 image i j)) :=
  ⟨by decide, by decide, extractImageH_heap_effects sig0 opt0 (by decide) (by decide)⟩

end Conduit
